import Mathlib

/-!
# PowerMem retention/ranking core — verification

A shallow embedding of PowerMem's retention/ranking subsystem, together with
theorems settling the specification's claims against it.

Numeric embedding: the implementation works with IEEE doubles; scores,
timestamps (in days) and configuration values are embedded as rationals `ℚ`
(retention values involving `exp` live in `ℝ`), so every algebraic claim is
settled over exact arithmetic.
-/

namespace PowerMem

/-! ## Ranking pipeline

`IntelligentMemoryManager.process_search_results` (shown in the repository's
Ebbinghaus documentation): for each raw search result it computes a relevance
score and a decay factor, annotates the result with
`final_score = relevance_score * decay_factor`, and then sorts the annotated
list with Python's `list.sort(key=..., reverse=True)`.  Python's sort is
guaranteed stable, and `reverse=True` reverses the comparisons without
disturbing the order of ties, so the sort is embedded as a stable descending
insertion sort on the `final_score` key.

The calls `calculate_relevance(result, query)` and `calculate_decay(created_at)`
are opaque in the shown code; they are taken as function parameters.
-/

/-- A raw search hit as consumed by `process_search_results`: an id and a
creation timestamp (the only fields the shown code reads). -/
structure RawHit where
  id : Int
  created_at : ℚ
deriving DecidableEq

/-- A processed search result: the raw fields plus the annotations the
pipeline adds (`relevance_score`, `decay_factor`, `final_score`). -/
structure ProcessedHit where
  id : Int
  created_at : ℚ
  relevance_score : ℚ
  decay_factor : ℚ
  final_score : ℚ
deriving DecidableEq

/-- The per-result body of the loop in `process_search_results`: compute the
relevance score, the decay factor from `created_at`, and
`final_score = relevance_score * decay_factor`. -/
def annotateHit (relevance : RawHit → ℚ) (calcDecay : ℚ → ℚ) (r : RawHit) :
    ProcessedHit :=
  { id := r.id
    created_at := r.created_at
    relevance_score := relevance r
    decay_factor := calcDecay r.created_at
    final_score := relevance r * calcDecay r.created_at }

/-- The descending comparison used by the final sort: `a` may come before `b`
iff `b.final_score ≤ a.final_score`. -/
def byFinal (a b : ProcessedHit) : Prop :=
  b.final_score ≤ a.final_score

instance : DecidableRel byFinal :=
  fun a b => inferInstanceAs (Decidable (b.final_score ≤ a.final_score))

instance : IsTotal ProcessedHit byFinal :=
  ⟨fun a b => le_total b.final_score a.final_score⟩

instance : IsTrans ProcessedHit byFinal :=
  ⟨fun _ _ _ h1 h2 => le_trans h2 h1⟩

/-- `IntelligentMemoryManager.process_search_results`: annotate every result,
then stably sort by `final_score` descending (Python's
`processed_results.sort(key=lambda x: x["final_score"], reverse=True)`). -/
def process_search_results (relevance : RawHit → ℚ) (calcDecay : ℚ → ℚ)
    (results : List RawHit) : List ProcessedHit :=
  List.insertionSort byFinal (results.map (annotateHit relevance calcDecay))

/-- Inserting a hit whose `final_score` is `q` places it in front of every
later-inserted hit with the same score: the `q`-scored subsequence gains the
new hit at its head. -/
lemma filter_orderedInsert_of_score (q : ℚ) (a : ProcessedHit)
    (l : List ProcessedHit) (ha : a.final_score = q) :
    (List.orderedInsert byFinal a l).filter (fun h => decide (h.final_score = q)) =
      a :: l.filter (fun h => decide (h.final_score = q)) := by
  induction l with
  | nil => simp [List.orderedInsert, ha]
  | cons b t ih =>
    rcases le_or_lt b.final_score a.final_score with hr | hr
    · have hab : byFinal a b := hr
      rw [List.orderedInsert, if_pos hab]
      simp [ha]
    · have hnab : ¬ byFinal a b := not_le.mpr hr
      have hb : ¬ (b.final_score = q) := ha ▸ hr.ne'
      rw [List.orderedInsert, if_neg hnab]
      simp [List.filter, hb, ih]

/-- Inserting a hit whose `final_score` is not `q` leaves the `q`-scored
subsequence unchanged. -/
lemma filter_orderedInsert_of_ne (q : ℚ) (a : ProcessedHit)
    (l : List ProcessedHit) (ha : ¬ a.final_score = q) :
    (List.orderedInsert byFinal a l).filter (fun h => decide (h.final_score = q)) =
      l.filter (fun h => decide (h.final_score = q)) := by
  induction l with
  | nil => simp [List.orderedInsert, ha]
  | cons b t ih =>
    rcases le_or_lt b.final_score a.final_score with hr | hr
    · have hab : byFinal a b := hr
      rw [List.orderedInsert, if_pos hab]
      simp [List.filter, ha]
    · have hnab : ¬ byFinal a b := not_le.mpr hr
      rw [List.orderedInsert, if_neg hnab]
      simp [List.filter, ih]

/-- The stable descending sort preserves, for every score value `q`, the
subsequence of hits scored `q` — i.e. ties keep their input order. -/
lemma filter_insertionSort_eq (q : ℚ) (l : List ProcessedHit) :
    (List.insertionSort byFinal l).filter (fun h => decide (h.final_score = q)) =
      l.filter (fun h => decide (h.final_score = q)) := by
  induction l with
  | nil => rfl
  | cons a t ih =>
    rw [List.insertionSort]
    by_cases ha : a.final_score = q
    · rw [filter_orderedInsert_of_score q a _ ha, ih]
      simp [List.filter, ha]
    · rw [filter_orderedInsert_of_ne q a _ ha, ih]
      simp [List.filter, ha]

/-- C1: `process_search_results` returns a permutation of the annotated input
hits that is sorted by `final_score` descending, and for every score value the
subsequence of hits carrying that `final_score` appears in the same relative
order as in the input sequence (stable sort). -/
theorem process_search_results_sorted_stable (relevance : RawHit → ℚ)
    (calcDecay : ℚ → ℚ) (results : List RawHit) :
    List.Pairwise (fun a b => b.final_score ≤ a.final_score)
        (process_search_results relevance calcDecay results) ∧
      (process_search_results relevance calcDecay results).Perm
        (results.map (annotateHit relevance calcDecay)) ∧
      ∀ q : ℚ,
        (process_search_results relevance calcDecay results).filter
            (fun h => decide (h.final_score = q)) =
          (results.map (annotateHit relevance calcDecay)).filter
            (fun h => decide (h.final_score = q)) := by
  refine ⟨?_, ?_, ?_⟩
  · exact List.sorted_insertionSort byFinal _
  · exact List.perm_insertionSort byFinal _
  · intro q
    exact filter_insertionSort_eq q _

/-- C2: every hit returned by `process_search_results` carries
`final_score = relevance_score * decay_factor` exactly, and that product lies
in `[0,1]` whenever both factors do. -/
theorem final_score_eq_product (relevance : RawHit → ℚ) (calcDecay : ℚ → ℚ)
    (results : List RawHit) (h : ProcessedHit)
    (hmem : h ∈ process_search_results relevance calcDecay results) :
    h.final_score = h.relevance_score * h.decay_factor ∧
      (0 ≤ h.relevance_score → h.relevance_score ≤ 1 →
        0 ≤ h.decay_factor → h.decay_factor ≤ 1 →
          0 ≤ h.final_score ∧ h.final_score ≤ 1) := by
  have hmem' : h ∈ results.map (annotateHit relevance calcDecay) :=
    (List.mem_insertionSort byFinal).mp hmem
  rcases List.mem_map.mp hmem' with ⟨r, _, rfl⟩
  refine ⟨rfl, fun h0 h1 h2 h3 => ⟨mul_nonneg h0 h2, mul_le_one₀ h1 h2 h3⟩⟩

/-- Witness for C2: a concrete hit of the concrete pipeline run, at which the
product law and the range bounds hold. -/
theorem final_score_eq_product_witness :
    annotateHit (fun _ => 1/2) (fun _ => 1/2) ⟨1, 0⟩ ∈
        process_search_results (fun _ => 1/2) (fun _ => 1/2) [⟨1, 0⟩] ∧
      ((annotateHit (fun _ => 1/2) (fun _ => 1/2) ⟨1, 0⟩).final_score =
          (annotateHit (fun _ => 1/2) (fun _ => 1/2) ⟨1, 0⟩).relevance_score *
            (annotateHit (fun _ => 1/2) (fun _ => 1/2) ⟨1, 0⟩).decay_factor ∧
        (0 ≤ (annotateHit (fun _ => 1/2) (fun _ => 1/2) ⟨1, 0⟩).relevance_score →
          (annotateHit (fun _ => 1/2) (fun _ => 1/2) ⟨1, 0⟩).relevance_score ≤ 1 →
          0 ≤ (annotateHit (fun _ => 1/2) (fun _ => 1/2) ⟨1, 0⟩).decay_factor →
          (annotateHit (fun _ => 1/2) (fun _ => 1/2) ⟨1, 0⟩).decay_factor ≤ 1 →
            0 ≤ (annotateHit (fun _ => 1/2) (fun _ => 1/2) ⟨1, 0⟩).final_score ∧
              (annotateHit (fun _ => 1/2) (fun _ => 1/2) ⟨1, 0⟩).final_score ≤ 1)) :=
  ⟨(List.mem_insertionSort byFinal).mpr (List.mem_singleton_self _),
    final_score_eq_product (fun _ => 1/2) (fun _ => 1/2) [⟨1, 0⟩] _
      ((List.mem_insertionSort byFinal).mpr (List.mem_singleton_self _))⟩

/-! ## RetentionModel and TierClassifier

The implementation of `calculate_decay` / `classify` is not among the source
files (the repository materials only document the Ebbinghaus formula and its
configuration), so the retention model is modelled from the spec. -/

/-- Modelled from the spec: the immutable configuration of the retention core
(`decay_rate` per day, `initial_retention`, `reinforcement_factor`, and the
three ascending tier thresholds). -/
structure Config where
  decay_rate : ℚ
  initial_retention : ℚ
  reinforcement_factor : ℚ
  working : ℚ
  short_term : ℚ
  long_term : ℚ
deriving DecidableEq

/-- Modelled from the spec: a valid configuration has `decay_rate > 0`,
`initial_retention ∈ (0,1]`, `reinforcement_factor ≥ 0`, and ascending tier
thresholds in `[0,1]`. -/
def Config.valid (c : Config) : Prop :=
  0 < c.decay_rate ∧ 0 < c.initial_retention ∧ c.initial_retention ≤ 1 ∧
    0 ≤ c.reinforcement_factor ∧ 0 ≤ c.working ∧ c.working ≤ c.short_term ∧
    c.short_term ≤ c.long_term ∧ c.long_term ≤ 1

instance (c : Config) : Decidable c.valid := by
  unfold Config.valid
  exact inferInstance

/-- Modelled from the spec: the decay reference time is `last_reinforced_at`
when present, else `created_at` (`calculate_decay` is not in the sources). -/
def refTime (created_at : ℚ) (last_reinforced_at : Option ℚ) : ℚ :=
  last_reinforced_at.getD created_at

/-- Modelled from the spec: `age_days = max(0, now − reference_time)`;
a `now` earlier than the reference time (clock skew) clamps to `0`. -/
def ageDays (created_at : ℚ) (last_reinforced_at : Option ℚ) (now : ℚ) : ℚ :=
  max 0 (now - refTime created_at last_reinforced_at)

/-- Modelled from the spec: the effective decay rate
`decay_rate / (1 + reinforcement_factor × access_count)`. -/
def effectiveRate (c : Config) (access_count : ℕ) : ℚ :=
  c.decay_rate / (1 + c.reinforcement_factor * access_count)

/-- Modelled from the spec: `RetentionModel.decay` returns
`initial_retention × exp(−effective_decay_rate × age_days)` clamped to
`[0, initial_retention]` (`calculate_decay` is not in the sources). -/
noncomputable def decay (created_at : ℚ) (last_reinforced_at : Option ℚ)
    (access_count : ℕ) (now : ℚ) (c : Config) : ℝ :=
  max 0
    (min
      ((c.initial_retention : ℝ) *
        Real.exp (-(effectiveRate c access_count : ℝ) *
          (ageDays created_at last_reinforced_at now : ℝ)))
      (c.initial_retention : ℝ))

/-- For a valid configuration the clamp in `decay` is a no-op: the retention
equals the unclamped `initial_retention × exp(−rate × age)` and lies in
`(0, initial_retention]`. -/
lemma decay_eq_of_valid (c : Config) (hv : c.valid) (created_at : ℚ)
    (last_reinforced_at : Option ℚ) (access_count : ℕ) (now : ℚ) :
    decay created_at last_reinforced_at access_count now c =
        (c.initial_retention : ℝ) *
          Real.exp (-(effectiveRate c access_count : ℝ) *
            (ageDays created_at last_reinforced_at now : ℝ)) ∧
      0 < decay created_at last_reinforced_at access_count now c ∧
      decay created_at last_reinforced_at access_count now c ≤
        (c.initial_retention : ℝ) := by
  obtain ⟨hdr, hir, _, hrf, _⟩ := hv
  have hinit : (0 : ℝ) < (c.initial_retention : ℝ) := by exact_mod_cast hir
  have hdenom : (0 : ℚ) < 1 + c.reinforcement_factor * access_count := by
    have h1 : (0 : ℚ) ≤ c.reinforcement_factor * access_count :=
      mul_nonneg hrf (Nat.cast_nonneg _)
    linarith
  have hrate : (0 : ℚ) < effectiveRate c access_count := div_pos hdr hdenom
  have hrateR : (0 : ℝ) ≤ (effectiveRate c access_count : ℝ) := by
    exact_mod_cast hrate.le
  have hage : (0 : ℚ) ≤ ageDays created_at last_reinforced_at now :=
    le_max_left 0 _
  have hageR : (0 : ℝ) ≤ (ageDays created_at last_reinforced_at now : ℝ) := by
    exact_mod_cast hage
  have hexp_le_one :
      Real.exp (-(effectiveRate c access_count : ℝ) *
          (ageDays created_at last_reinforced_at now : ℝ)) ≤ 1 := by
    rw [Real.exp_le_one_iff, neg_mul, neg_nonpos]
    exact mul_nonneg hrateR hageR
  have hval_pos :
      (0 : ℝ) <
        (c.initial_retention : ℝ) *
          Real.exp (-(effectiveRate c access_count : ℝ) *
            (ageDays created_at last_reinforced_at now : ℝ)) :=
    mul_pos hinit (Real.exp_pos _)
  have hval_le :
      (c.initial_retention : ℝ) *
          Real.exp (-(effectiveRate c access_count : ℝ) *
            (ageDays created_at last_reinforced_at now : ℝ)) ≤
        (c.initial_retention : ℝ) :=
    mul_le_of_le_one_right hinit.le hexp_le_one
  have hd :
      decay created_at last_reinforced_at access_count now c =
        (c.initial_retention : ℝ) *
          Real.exp (-(effectiveRate c access_count : ℝ) *
            (ageDays created_at last_reinforced_at now : ℝ)) := by
    unfold decay
    rw [min_eq_left hval_le, max_eq_right hval_pos.le]
  exact ⟨hd, hd ▸ hval_pos, hd ▸ hval_le⟩

/-- C6: for a valid configuration, `decay` with `access_count = 0`,
no reinforcement and `now = created_at` returns exactly `initial_retention`;
in general `decay` equals `initial_retention × exp(−effective_rate × age)`
clamped to `[0, initial_retention]`, the clamp being a no-op in `(0, init]`. -/
theorem decay_formula (c : Config) (hv : c.valid) (created_at : ℚ)
    (last_reinforced_at : Option ℚ) (access_count : ℕ) (now : ℚ) :
    decay created_at none 0 created_at c = (c.initial_retention : ℝ) ∧
      decay created_at last_reinforced_at access_count now c =
        max 0
          (min
            ((c.initial_retention : ℝ) *
              Real.exp (-(effectiveRate c access_count : ℝ) *
                (ageDays created_at last_reinforced_at now : ℝ)))
            (c.initial_retention : ℝ)) ∧
      decay created_at last_reinforced_at access_count now c =
        (c.initial_retention : ℝ) *
          Real.exp (-(effectiveRate c access_count : ℝ) *
            (ageDays created_at last_reinforced_at now : ℝ)) ∧
      0 < decay created_at last_reinforced_at access_count now c ∧
      decay created_at last_reinforced_at access_count now c ≤
        (c.initial_retention : ℝ) := by
  obtain ⟨hd, hpos, hle⟩ :=
    decay_eq_of_valid c hv created_at last_reinforced_at access_count now
  obtain ⟨hd0, _, _⟩ := decay_eq_of_valid c hv created_at none 0 created_at
  refine ⟨?_, rfl, hd, hpos, hle⟩
  have hage0 : ageDays created_at none created_at = 0 := by
    simp [ageDays, refTime]
  rw [hd0, hage0]
  norm_num

/-- Witness for C6 at the spec's recommended configuration. -/
theorem decay_formula_witness :
    (Config.valid ⟨1/10, 1, 3/10, 3/10, 6/10, 8/10⟩) ∧
      (decay 0 none 0 0 ⟨1/10, 1, 3/10, 3/10, 6/10, 8/10⟩ =
          ((⟨1/10, 1, 3/10, 3/10, 6/10, 8/10⟩ : Config).initial_retention : ℝ) ∧
        decay 0 (some 0) 2 10 ⟨1/10, 1, 3/10, 3/10, 6/10, 8/10⟩ =
          max 0
            (min
              (((⟨1/10, 1, 3/10, 3/10, 6/10, 8/10⟩ : Config).initial_retention : ℝ) *
                Real.exp
                  (-(effectiveRate ⟨1/10, 1, 3/10, 3/10, 6/10, 8/10⟩ 2 : ℝ) *
                    (ageDays 0 (some 0) 10 : ℝ)))
              (((⟨1/10, 1, 3/10, 3/10, 6/10, 8/10⟩ : Config).initial_retention : ℝ))) ∧
        decay 0 (some 0) 2 10 ⟨1/10, 1, 3/10, 3/10, 6/10, 8/10⟩ =
          (((⟨1/10, 1, 3/10, 3/10, 6/10, 8/10⟩ : Config).initial_retention : ℝ)) *
            Real.exp
              (-(effectiveRate ⟨1/10, 1, 3/10, 3/10, 6/10, 8/10⟩ 2 : ℝ) *
                (ageDays 0 (some 0) 10 : ℝ)) ∧
        0 < decay 0 (some 0) 2 10 ⟨1/10, 1, 3/10, 3/10, 6/10, 8/10⟩ ∧
        decay 0 (some 0) 2 10 ⟨1/10, 1, 3/10, 3/10, 6/10, 8/10⟩ ≤
          (((⟨1/10, 1, 3/10, 3/10, 6/10, 8/10⟩ : Config).initial_retention : ℝ))) :=
  ⟨by norm_num [Config.valid],
    decay_formula ⟨1/10, 1, 3/10, 3/10, 6/10, 8/10⟩ (by norm_num [Config.valid])
      0 (some 0) 2 10⟩

/-- C3: the reference time is `last_reinforced_at` when present and
`created_at` otherwise, `age_days = max(0, now − reference_time)`, and a `now`
at or before the reference time yields age `0` (clock skew is clamped, not an
error). -/
theorem age_reference_and_clock_skew (created_at : ℚ)
    (last_reinforced_at : Option ℚ) (now : ℚ)
    (h : now ≤ refTime created_at last_reinforced_at) :
    refTime created_at last_reinforced_at = last_reinforced_at.getD created_at ∧
      ageDays created_at last_reinforced_at now =
        max 0 (now - refTime created_at last_reinforced_at) ∧
      ageDays created_at last_reinforced_at now = 0 := by
  refine ⟨rfl, rfl, ?_⟩
  unfold ageDays
  exact max_eq_left (sub_nonpos.mpr h)

/-- Witness for C3: `now = 2` lies before the reinforcement time `3`, and the
age clamps to `0`. -/
theorem age_reference_and_clock_skew_witness :
    (2 : ℚ) ≤ refTime 5 (some 3) ∧
      (refTime 5 (some 3) = (some (3 : ℚ)).getD 5 ∧
        ageDays 5 (some 3) 2 = max 0 (2 - refTime 5 (some 3)) ∧
        ageDays 5 (some 3) 2 = 0) :=
  ⟨by norm_num [refTime], age_reference_and_clock_skew 5 (some 3) 2 (by norm_num [refTime])⟩

/-- C8: for a valid configuration and fixed `access_count`, `decay` is
non-increasing as the elapsed age grows (`now1 ≤ now2`). -/
theorem decay_antitone_in_age (c : Config) (hv : c.valid) (created_at : ℚ)
    (last_reinforced_at : Option ℚ) (access_count : ℕ) (now1 now2 : ℚ)
    (h12 : now1 ≤ now2) :
    decay created_at last_reinforced_at access_count now2 c ≤
      decay created_at last_reinforced_at access_count now1 c := by
  obtain ⟨hd2, _, _⟩ :=
    decay_eq_of_valid c hv created_at last_reinforced_at access_count now2
  obtain ⟨hd1, _, _⟩ :=
    decay_eq_of_valid c hv created_at last_reinforced_at access_count now1
  rw [hd1, hd2]
  have hinit : (0 : ℝ) ≤ (c.initial_retention : ℝ) := by
    exact_mod_cast hv.2.1.le
  have hrate : (0 : ℚ) ≤ effectiveRate c access_count := by
    have hdenom : (0 : ℚ) < 1 + c.reinforcement_factor * access_count := by
      have h1 : (0 : ℚ) ≤ c.reinforcement_factor * access_count :=
        mul_nonneg hv.2.2.2.1 (Nat.cast_nonneg _)
      linarith
    exact (div_pos hv.1 hdenom).le
  have hageQ :
      ageDays created_at last_reinforced_at now1 ≤
        ageDays created_at last_reinforced_at now2 := by
    unfold ageDays
    exact max_le_max le_rfl (sub_le_sub_right h12 _)
  have hage :
      ((ageDays created_at last_reinforced_at now1 : ℚ) : ℝ) ≤
        ((ageDays created_at last_reinforced_at now2 : ℚ) : ℝ) := by
    exact_mod_cast hageQ
  have hrateR : (0 : ℝ) ≤ (effectiveRate c access_count : ℝ) := by
    exact_mod_cast hrate
  refine mul_le_mul_of_nonneg_left (Real.exp_le_exp.mpr ?_) hinit
  rw [neg_mul, neg_mul, neg_le_neg_iff]
  exact mul_le_mul_of_nonneg_left hage hrateR

/-- Witness for C8 at the spec's recommended configuration, ages 0 and 1. -/
theorem decay_antitone_in_age_witness :
    (Config.valid ⟨1/10, 1, 3/10, 3/10, 6/10, 8/10⟩ ∧ (0 : ℚ) ≤ 1) ∧
      decay 0 none 0 1 ⟨1/10, 1, 3/10, 3/10, 6/10, 8/10⟩ ≤
        decay 0 none 0 0 ⟨1/10, 1, 3/10, 3/10, 6/10, 8/10⟩ :=
  ⟨⟨by norm_num [Config.valid], by norm_num⟩,
    decay_antitone_in_age ⟨1/10, 1, 3/10, 3/10, 6/10, 8/10⟩
      (by norm_num [Config.valid]) 0 none 0 0 1 (by norm_num)⟩

/-- Modelled from the spec: the lifecycle tier of a memory, as a closed
enumeration. -/
inductive Tier where
  | LongTerm
  | ShortTerm
  | Working
  | Forgotten
deriving DecidableEq

/-- Modelled from the spec: `TierClassifier.classify` — `retention ≥
long_term → LongTerm`, else `≥ short_term → ShortTerm`, else `≥ working →
Working`, else `Forgotten`. -/
def classify (retention : ℚ) (c : Config) : Tier :=
  if c.long_term ≤ retention then Tier.LongTerm
  else if c.short_term ≤ retention then Tier.ShortTerm
  else if c.working ≤ retention then Tier.Working
  else Tier.Forgotten

/-- C7: with ascending thresholds, `classify` maps a retention to `LongTerm`
iff it reaches `long_term`, to `ShortTerm` iff it reaches only `short_term`,
to `Working` iff it reaches only `working`, and to `Forgotten` below
`working`. -/
theorem classify_cascade (retention : ℚ) (c : Config)
    (hv : c.working ≤ c.short_term ∧ c.short_term ≤ c.long_term) :
    (c.long_term ≤ retention → classify retention c = Tier.LongTerm) ∧
      (c.short_term ≤ retention → retention < c.long_term →
        classify retention c = Tier.ShortTerm) ∧
      (c.working ≤ retention → retention < c.short_term →
        classify retention c = Tier.Working) ∧
      (retention < c.working → classify retention c = Tier.Forgotten) := by
  refine ⟨fun h1 => ?_, fun h1 h2 => ?_, fun h1 h2 => ?_, fun h1 => ?_⟩
  · simp [classify, h1]
  · simp [classify, not_le.mpr h2, h1]
  · simp [classify, not_le.mpr (lt_of_lt_of_le h2 hv.2), not_le.mpr h2, h1]
  · have h2 : retention < c.short_term := lt_of_lt_of_le h1 hv.1
    have h3 : retention < c.long_term := lt_of_lt_of_le h2 hv.2
    simp [classify, not_le.mpr h3, not_le.mpr h2, not_le.mpr h1]

/-- Witness for C7: with thresholds `{0.3, 0.6, 0.8}`, retention `0.85` maps
to `LongTerm`, `0.65` to `ShortTerm`, `0.35` to `Working`, `0.1` to
`Forgotten`. -/
theorem classify_cascade_witness :
    ((⟨1/10, 1, 3/10, 3/10, 6/10, 8/10⟩ : Config).working ≤
          (⟨1/10, 1, 3/10, 3/10, 6/10, 8/10⟩ : Config).short_term ∧
        (⟨1/10, 1, 3/10, 3/10, 6/10, 8/10⟩ : Config).short_term ≤
          (⟨1/10, 1, 3/10, 3/10, 6/10, 8/10⟩ : Config).long_term) ∧
      classify (85/100) ⟨1/10, 1, 3/10, 3/10, 6/10, 8/10⟩ = Tier.LongTerm ∧
      classify (65/100) ⟨1/10, 1, 3/10, 3/10, 6/10, 8/10⟩ = Tier.ShortTerm ∧
      classify (35/100) ⟨1/10, 1, 3/10, 3/10, 6/10, 8/10⟩ = Tier.Working ∧
      classify (1/10) ⟨1/10, 1, 3/10, 3/10, 6/10, 8/10⟩ = Tier.Forgotten :=
  ⟨⟨by norm_num, by norm_num⟩,
    (classify_cascade (85/100) _ ⟨by norm_num, by norm_num⟩).1 (by norm_num),
    (classify_cascade (65/100) _ ⟨by norm_num, by norm_num⟩).2.1 (by norm_num)
      (by norm_num),
    (classify_cascade (35/100) _ ⟨by norm_num, by norm_num⟩).2.2.1 (by norm_num)
      (by norm_num),
    (classify_cascade (1/10) _ ⟨by norm_num, by norm_num⟩).2.2.2 (by norm_num)⟩

/-! ## ReinforcementTracker

The tracker implementation is not among the source files; it is modelled from
the spec.  `reinforce` is the spec's atomic read-modify-write on a single
id's state, so a concurrent execution in which N independent callers each
perform one `reinforce` is an arbitrary interleaving, i.e. an arbitrary
ordering of the N atomic calls (possibly interleaved with calls on other
ids). -/

/-- Modelled from the spec: the tracker's state, mapping each memory id to
`(access_count, last_reinforced_at)`; unknown ids default to `(0, none)` in
the initial state. -/
def TrackerState : Type :=
  Int → ℕ × Option ℚ

/-- Modelled from the spec: the initial tracker state — every id defaults to
`(access_count = 0, last_reinforced_at absent)`. -/
def emptyTracker : TrackerState :=
  fun _ => (0, none)

/-- Modelled from the spec: `get(id)` returns the tracked
`(access_count, last_reinforced_at)` pair. -/
def trackerGet (s : TrackerState) (id : Int) : ℕ × Option ℚ :=
  s id

/-- Modelled from the spec: `reinforce(id, now)` atomically increments the
counter and sets the timestamp, returning `(new_access_count, now)`. -/
def reinforce (s : TrackerState) (id : Int) (now : ℚ) :
    TrackerState × (ℕ × ℚ) :=
  (fun i => if i = id then ((s id).1 + 1, some now) else s i,
    ((s id).1 + 1, now))

/-- Modelled from the spec: run a schedule (an arbitrary interleaving) of
atomic `reinforce` calls, left to right. -/
def runSchedule (s : TrackerState) (ops : List (Int × ℚ)) : TrackerState :=
  ops.foldl (fun st p => (reinforce st p.1 p.2).1) s

/-- C9: under any interleaving of atomic `reinforce` calls, the stored
`access_count` of an id grows by exactly the number of calls targeting that
id — in particular N one-shot concurrent callers on the same id leave
`access_count = N`, and no increment is ever lost. -/
theorem reinforce_no_lost_updates (s : TrackerState) (ops : List (Int × ℚ))
    (id : Int) :
    (trackerGet (runSchedule s ops) id).1 =
      (trackerGet s id).1 + ops.countP (fun p => p.1 == id) := by
  induction ops generalizing s with
  | nil => simp [runSchedule, trackerGet]
  | cons p t ih =>
    have hstep :
        runSchedule s (p :: t) = runSchedule (reinforce s p.1 p.2).1 t := by
      simp [runSchedule]
    rw [hstep, ih, List.countP_cons]
    by_cases h : id = p.1
    · subst h
      simp [trackerGet, reinforce]
      omega
    · have h' : (p.1 == id) = false := by
        rw [beq_eq_false_iff_ne]
        exact fun hc => h hc.symm
      simp [trackerGet, reinforce, h, h']

/-! ## RelevanceScorer and per-hit error isolation

`RelevanceScorer.combine` and the spec's `rank` pipeline (with its per-hit
error isolation) are not among the source files; they are modelled from the
spec. -/

/-- Modelled from the spec: the per-hit scoring error kind. -/
inductive ScoreError where
  | InvalidScore
deriving DecidableEq

/-- Modelled from the spec: `RelevanceScorer.combine(similarity, retention)`
returns `similarity × retention`, failing with `InvalidScore` when the
similarity lies outside `[0,1]`. -/
def combine (similarity retention : ℚ) : Except ScoreError ℚ :=
  if 0 ≤ similarity ∧ similarity ≤ 1 then Except.ok (similarity * retention)
  else Except.error ScoreError.InvalidScore

/-- A raw hit as supplied by the similarity-search collaborator. -/
structure SpecHit where
  id : Int
  similarity : ℚ
  created_at : ℚ
deriving DecidableEq

/-- A scored hit produced by the spec's `rank` operation. -/
structure ScoredHit where
  id : Int
  similarity : ℚ
  retention : ℚ
  final_score : ℚ
deriving DecidableEq

/-- The descending comparison on scored hits used by `rank`'s final sort. -/
def byFinalScored (a b : ScoredHit) : Prop :=
  b.final_score ≤ a.final_score

instance : DecidableRel byFinalScored :=
  fun a b => inferInstanceAs (Decidable (b.final_score ≤ a.final_score))

/-- Modelled from the spec: score a single raw hit — compute its retention,
combine it with the similarity, and reject the hit (only this hit) when the
scorer fails. -/
def scoreHit (retentionOf : SpecHit → ℚ) (h : SpecHit) : Option ScoredHit :=
  match combine h.similarity (retentionOf h) with
  | Except.ok fs => some ⟨h.id, h.similarity, retentionOf h, fs⟩
  | Except.error _ => none

/-- Modelled from the spec: `rank(raw_hits, ...)` — score every hit, drop
only the per-hit failures, and sort stably by `final_score` descending.
The retention computation is passed as a function parameter. -/
def rank (retentionOf : SpecHit → ℚ) (raw_hits : List SpecHit) :
    List ScoredHit :=
  List.insertionSort byFinalScored (raw_hits.filterMap (scoreHit retentionOf))

/-- C4: a hit whose similarity lies outside `[0,1]` makes the scorer fail
with `InvalidScore`, and `rank` drops exactly that hit: the output for the
batch with the bad hit equals the output for the batch without it. -/
theorem invalidScore_isolated (retentionOf : SpecHit → ℚ)
    (pre post : List SpecHit) (bad : SpecHit)
    (hbad : bad.similarity < 0 ∨ 1 < bad.similarity) :
    combine bad.similarity (retentionOf bad) =
        Except.error ScoreError.InvalidScore ∧
      rank retentionOf (pre ++ bad :: post) = rank retentionOf (pre ++ post) := by
  have hc : combine bad.similarity (retentionOf bad) =
      Except.error ScoreError.InvalidScore := by
    unfold combine
    rcases hbad with h | h
    · rw [if_neg]
      intro hcon
      exact absurd hcon.1 (not_le.mpr h)
    · rw [if_neg]
      intro hcon
      exact absurd hcon.2 (not_le.mpr h)
  have hs : scoreHit retentionOf bad = none := by
    simp [scoreHit, hc]
  refine ⟨hc, ?_⟩
  unfold rank
  rw [List.filterMap_append, List.filterMap_append, List.filterMap_cons, hs]

/-- Witness for C4: in the batch `[good₁, bad, good₂]` with
`bad.similarity = 3/2`, the scorer rejects `bad` and the ranking of the rest
is unchanged. -/
theorem invalidScore_isolated_witness :
    ((⟨3, 3/2, 0⟩ : SpecHit).similarity < 0 ∨
        1 < (⟨3, 3/2, 0⟩ : SpecHit).similarity) ∧
      (combine (⟨3, 3/2, 0⟩ : SpecHit).similarity
            ((fun _ => (1 : ℚ)/2) (⟨3, 3/2, 0⟩ : SpecHit)) =
          Except.error ScoreError.InvalidScore ∧
        rank (fun _ => (1 : ℚ)/2)
            ([⟨1, 1, 0⟩] ++ (⟨3, 3/2, 0⟩ : SpecHit) :: [⟨2, 0, 0⟩]) =
          rank (fun _ => (1 : ℚ)/2) ([⟨1, 1, 0⟩] ++ [⟨2, 0, 0⟩])) :=
  ⟨Or.inr (by norm_num),
    invalidScore_isolated (fun _ => (1 : ℚ)/2) [⟨1, 1, 0⟩] [⟨2, 0, 0⟩]
      ⟨3, 3/2, 0⟩ (Or.inr (by norm_num))⟩

/-! ## The JSON boundary for 64-bit memory ids

`examples/go/models.go` defines `MemoryID int64` with custom
`MarshalJSON`/`UnmarshalJSON`.  JSON values are embedded symbolically; a JSON
number carries its literal token.  A JSON consumer that stores numbers as
IEEE-754 doubles (e.g. JavaScript, as demonstrated by the repository's
`test_precision.js`) rounds an integer literal to the nearest double, which
is modelled exactly by `roundNatToDouble`. -/

/-- A JSON value; `num` carries the number's literal token as written on the
wire. -/
inductive Json where
  | num (lit : String)
  | str (s : String)
  | bool (b : Bool)
  | null
  | arr (xs : List Json)
  | obj (fields : List (String × Json))

/-- The numeric value of a decimal digit character, if it is one. -/
def digitVal (ch : Char) : Option ℕ :=
  if ch.isDigit then some (ch.toNat - 48) else none

/-- Fold a list of characters into the decimal number they spell, failing on
any non-digit. -/
def parseDigits (cs : List Char) : Option ℕ :=
  cs.foldl
    (fun acc ch => acc.bind (fun n => (digitVal ch).map (fun d => n * 10 + d)))
    (some 0)

/-- Go's `strconv.ParseInt(s, 10, 64)`: an optional sign followed by at least
one decimal digit, with the value constrained to the int64 range
`[-2^63, 2^63 − 1]`; anything else is an error (`none`). -/
def parseInt64 (s : String) : Option Int :=
  match s.toList with
  | [] => none
  | c :: rest =>
    let sign : Int := if c = '-' then -1 else 1
    let digits : List Char := if c = '-' ∨ c = '+' then rest else c :: rest
    match digits with
    | [] => none
    | _ =>
      match parseDigits digits with
      | none => none
      | some n =>
        let v : Int := sign * n
        if -(2^63) ≤ v ∧ v ≤ 2^63 - 1 then some v else none

/-- The outcome of Go's `json.Unmarshal(data, &n)` for an `int64` target:
either it decodes a value, or the data is JSON `null` (a documented no-op
that succeeds without writing), or it fails. -/
inductive Int64Decode where
  | ok (v : Int)
  | noop
  | failed
deriving DecidableEq

/-- Go's `json.Unmarshal` into an `int64`: an integer number token in range
decodes, JSON `null` is a successful no-op, and every other value fails. -/
def goUnmarshalInt64 (j : Json) : Int64Decode :=
  match j with
  | Json.num lit =>
    match parseInt64 lit with
    | some v => Int64Decode.ok v
    | none => Int64Decode.failed
  | Json.null => Int64Decode.noop
  | _ => Int64Decode.failed

/-- `MemoryID.MarshalJSON`: `json.Marshal(int64(m))` emits the id as a JSON
number token holding its decimal digits. -/
def MemoryID.marshalJSON (m : Int) : Json :=
  Json.num (toString m)

/-- `MemoryID.UnmarshalJSON` from `examples/go/models.go`: first try to
unmarshal as an `int64` (inside Go this succeeds as a no-op on `null`,
leaving the freshly zeroed local `n`, so the id becomes `0`); on failure try
to unmarshal as a string and `strconv.ParseInt` it, returning that parse
error if it fails; for every other value return `nil` leaving the id
(`prior`) unchanged. -/
def MemoryID.unmarshalJSON (data : Json) (prior : Int) : Except String Int :=
  match goUnmarshalInt64 data with
  | Int64Decode.ok v => Except.ok v
  | Int64Decode.noop => Except.ok 0
  | Int64Decode.failed =>
    match data with
    | Json.str s =>
      match parseInt64 s with
      | some v => Except.ok v
      | none => Except.error "invalid memory id string"
    | _ => Except.ok prior

/-- The binade exponent of a positive integer below `2^64`: the largest
`k < 64` with `2^k ≤ n`. -/
def binadeExp (n : ℕ) : ℕ :=
  (List.range 64).foldl (fun acc k => if 2^k ≤ n then k else acc) 0

/-- Round a nonnegative integer below `2^64` to the nearest IEEE-754 double
(53-bit significand, ties to even); integers below `2^53` are exact. -/
def roundNatToDouble (n : ℕ) : ℕ :=
  if n < 2^53 then n
  else
    let ulp := 2^(binadeExp n - 52)
    let q := n / ulp
    let r := n % ulp
    if 2*r < ulp then q * ulp
    else if ulp < 2*r then (q + 1) * ulp
    else if q % 2 = 0 then q * ulp else (q + 1) * ulp

/-- C5 (code bug evidence): `MemoryID.MarshalJSON` encodes the id
`2^53 + 1 = 9007199254740993` as the JSON number token `9007199254740993`
— not as a JSON string — and a double-based JSON consumer parses that token
to `9007199254740992`, so the serialized-then-parsed value differs from the
original id. -/
theorem marshalJSON_number_loses_precision :
    MemoryID.marshalJSON 9007199254740993 = Json.num "9007199254740993" ∧
      roundNatToDouble 9007199254740993 = 9007199254740992 ∧
      (9007199254740992 : ℕ) ≠ 9007199254740993 := by
  refine ⟨rfl, by decide, by decide⟩

/-- C10 counterexample: on JSON `null`, `UnmarshalJSON` returns no error but
does not leave the id unchanged — a prior id `5` is overwritten with `0`. -/
theorem unmarshalJSON_null_overwrites :
    MemoryID.unmarshalJSON Json.null 5 = Except.ok 0 ∧
      (Except.ok (0 : Int) : Except String Int) ≠ Except.ok 5 := by
  refine ⟨rfl, fun h => ?_⟩
  exact absurd (Except.ok.inj h) (by decide)

/-- C10 amended: `UnmarshalJSON` accepts an in-range integer JSON number and
a JSON string that parses as an int64 (setting the id to the parsed value),
errors only on a JSON string that fails 64-bit parsing, succeeds on JSON
`null` by resetting the id to `0`, and returns no error leaving the id
unchanged on every other value (object, array, boolean, non-integer or
out-of-range number). -/
theorem unmarshalJSON_characterization (prior : Int) :
    (∀ lit v, parseInt64 lit = some v →
        MemoryID.unmarshalJSON (Json.num lit) prior = Except.ok v) ∧
      (∀ lit, parseInt64 lit = none →
        MemoryID.unmarshalJSON (Json.num lit) prior = Except.ok prior) ∧
      MemoryID.unmarshalJSON Json.null prior = Except.ok 0 ∧
      (∀ s v, parseInt64 s = some v →
        MemoryID.unmarshalJSON (Json.str s) prior = Except.ok v) ∧
      (∀ s, parseInt64 s = none →
        MemoryID.unmarshalJSON (Json.str s) prior =
          Except.error "invalid memory id string") ∧
      (∀ b, MemoryID.unmarshalJSON (Json.bool b) prior = Except.ok prior) ∧
      (∀ xs, MemoryID.unmarshalJSON (Json.arr xs) prior = Except.ok prior) ∧
      (∀ fields, MemoryID.unmarshalJSON (Json.obj fields) prior = Except.ok prior) := by
  refine ⟨?_, ?_, rfl, ?_, ?_, fun b => rfl, fun xs => rfl, fun fields => rfl⟩
  · intro lit v hp
    simp [MemoryID.unmarshalJSON, goUnmarshalInt64, hp]
  · intro lit hp
    simp [MemoryID.unmarshalJSON, goUnmarshalInt64, hp]
  · intro s v hp
    simp [MemoryID.unmarshalJSON, goUnmarshalInt64, hp]
  · intro s hp
    simp [MemoryID.unmarshalJSON, goUnmarshalInt64, hp]

/-- Witness for the amended C10: the string id `"123"` parses and sets the
id, and the number token `"1.5"` fails integer decoding and leaves a prior
id `7` unchanged. -/
theorem unmarshalJSON_characterization_witness :
    parseInt64 "123" = some 123 ∧
      MemoryID.unmarshalJSON (Json.str "123") 7 = Except.ok 123 ∧
      parseInt64 "1.5" = none ∧
      MemoryID.unmarshalJSON (Json.num "1.5") 7 = Except.ok 7 :=
  ⟨by decide,
    (unmarshalJSON_characterization 7).2.2.2.1 "123" 123 (by decide),
    by decide,
    (unmarshalJSON_characterization 7).2.1 "1.5" (by decide)⟩

end PowerMem
